import Mathlib

/-!
Verification development for the keyword-planner pipeline
(scrape → normalize → AI-generate → idempotent-ingest).

Python strings are embedded as `List Char`; machine-level behaviour of
`re.search`/`re.sub` for the fixed pattern matching a slash, two lowercase
ASCII letters and a slash, of `str.replace`, `str.strip`, `str.lower`,
`str.split`, `str.find`/`str.rfind` is modelled directly.  External
collaborators (HTTP fetches, HTML parsing results, the language model,
`json.loads`, the document store transport) enter as explicit oracle
parameters, so every component function stays executable and total.
-/

abbrev Str := List Char

/-- ASCII lowercase letter test (codepoints 97–122), the character class
`[a-z]` of the locale pattern. -/
def isLowerAZ (c : Char) : Bool := decide (97 ≤ c.toNat) && decide (c.toNat ≤ 122)

/-- `startsWith pat s` is true when `pat` is an initial segment of `s`. -/
def startsWith : Str → Str → Bool
  | [], _ => true
  | _ :: _, [] => false
  | p :: ps, c :: cs => p == c && startsWith ps cs

/-- `hasSub pat s`: `pat` occurs as a contiguous substring of `s`
(Python `pat in s` for strings). -/
def hasSub (pat : Str) : Str → Bool
  | [] => startsWith pat []
  | c :: rest => startsWith pat (c :: rest) || hasSub pat rest

/-- Python `s.replace(pat, rep)`: replace every non-overlapping occurrence of
`pat`, scanning left to right.  (Only ever used with a non-empty `pat`;
the guard keeps the function total.) -/
def pyReplace (pat rep : Str) : Str → Str
  | [] => []
  | c :: rest =>
    if h : 0 < pat.length ∧ startsWith pat (c :: rest) = true then
      rep ++ pyReplace pat rep ((c :: rest).drop pat.length)
    else
      c :: pyReplace pat rep rest
termination_by s => s.length
decreasing_by
  · simp only [List.length_drop, List.length_cons]
    omega
  · simp only [List.length_cons]
    omega

/-- Python whitespace for `str.strip()` (ASCII fragment). -/
def isPySpace (c : Char) : Bool :=
  c == ' ' || c == '\t' || c == '\n' || c == '\r' || c == '\x0b' || c == '\x0c'

/-- Python `s.strip()`. -/
def pyStrip (s : Str) : Str :=
  ((s.dropWhile isPySpace).reverse.dropWhile isPySpace).reverse

/-- Python `s.lower()` (ASCII fragment). -/
def pyLower (s : Str) : Str := s.map Char.toLower

/-- The fixed stop-word set of `AppStoreScraper._stop_keywords`. -/
def stopKeywords : List Str :=
  ["ios apps".toList, "app".toList, "appstore".toList, "app store".toList,
   "iphone".toList, "ipad".toList, "ipod touch".toList, "itouch".toList,
   "itunes".toList, "apple".toList]

/-- `k.strip().lower()` applied to one comma token. -/
def normalizeToken (k : Str) : Str := pyLower (pyStrip k)

/-- The keyword filter predicate of `_get_keywords_from_soup`:
`k not in self._stop_keywords and k not in (self.app_name.lower(),
self.app_subtitle.lower())`. -/
def keywordPred (appName appSubtitle : Str) (k : Str) : Bool :=
  !(stopKeywords.any (fun w => w == k)) &&
  !(k == pyLower appName) && !(k == pyLower appSubtitle)

/-- Body of `_get_keywords_from_soup` once the keywords meta-tag content
string is in hand: split on comma, strip and lower each token, then filter. -/
def getKeywordsFromContent (appName appSubtitle content : Str) : List Str :=
  let all_keywords := (content.splitOn ',').map normalizeToken
  all_keywords.filter (keywordPred appName appSubtitle)

/-- `_get_keywords_from_soup`: a missing keywords meta tag (or a non-string
content attribute) yields the empty list, never an error. -/
def getKeywordsFromSoup (appName appSubtitle : Str) (content? : Option Str) :
    List Str :=
  match content? with
  | none => []
  | some c => getKeywordsFromContent appName appSubtitle c

structure CompetitorApp where
  appname : Str
  appurl : Str
deriving DecidableEq

structure CompetitorAppKeywords where
  appname : Str
  keywords : List Str
deriving DecidableEq

/-- `_fetch_competitor_keywords`.  The oracle `result` is the outcome of the
HTTP fetch and parse of the competitor page: an exception (`Except.error`),
or the content of the competitor page's keywords meta tag.  A failure is
caught and returned as `none`; on success the keywords are extracted with
`_get_keywords_from_soup`, which still filters against the MAIN scraper
object's `self.app_name` and `self.app_subtitle`. -/
def fetchCompetitorKeywords (appName appSubtitle : Str)
    (result : Except Unit (Option Str)) (comp : CompetitorApp) :
    Option CompetitorAppKeywords :=
  match result with
  | .error _ => none
  | .ok content? => some ⟨comp.appname, getKeywordsFromSoup appName appSubtitle content?⟩

/-- `_scrape_competitors_concurrently`: build tasks for the first three
competitors only, gather the results in order, drop the `None`s of failed
fetches.  Returned as (the competitors actually fetched, the result list). -/
def scrapeCompetitorsBatch (appName appSubtitle : Str)
    (fetch : CompetitorApp → Except Unit (Option Str))
    (competitors : List CompetitorApp) :
    List CompetitorApp × List CompetitorAppKeywords :=
  (competitors.take 3,
   (competitors.take 3).filterMap
     (fun c => fetchCompetitorKeywords appName appSubtitle (fetch c) c))

lemma keywordPred_iff {appName appSubtitle k : Str} :
    keywordPred appName appSubtitle k = true ↔
      (k ∉ stopKeywords ∧ k ≠ pyLower appName ∧ k ≠ pyLower appSubtitle) := by
  simp only [keywordPred, Bool.and_eq_true, Bool.not_eq_true', List.any_eq_false,
    beq_eq_false_iff_ne, ne_eq, and_assoc]
  constructor
  · rintro ⟨h1, h2, h3⟩
    exact ⟨fun hk => h1 k hk (beq_self_eq_true k), h2, h3⟩
  · rintro ⟨h1, h2, h3⟩
    exact ⟨fun w hw hwk => h1 (eq_of_beq hwk ▸ hw), h2, h3⟩

/-- Membership characterization of the keyword filter: `k` is kept exactly
when it is a trimmed, lower-cased comma token of the content that is not a
stop word and differs (case-insensitively) from the app's own name and
subtitle. -/
lemma mem_getKeywordsFromContent {appName appSubtitle content k : Str} :
    k ∈ getKeywordsFromContent appName appSubtitle content ↔
      (k ∈ (content.splitOn ',').map normalizeToken ∧
       k ∉ stopKeywords ∧ k ≠ pyLower appName ∧ k ≠ pyLower appSubtitle) := by
  simp only [getKeywordsFromContent, List.mem_filter, keywordPred_iff]

/-- The filter retains tokens in their original order (it is a sublist of the
normalized token sequence). -/
lemma getKeywordsFromContent_sublist (appName appSubtitle content : Str) :
    (getKeywordsFromContent appName appSubtitle content).Sublist
      ((content.splitOn ',').map normalizeToken) :=
  List.filter_sublist _

/-- C6 (amended: the code keeps duplicate tokens; no deduplication happens).
The keyword filter excludes exactly those comma-separated tokens that, after
trimming and lower-casing, equal a fixed stop word, the app's own name, or
its own subtitle (case-insensitively), and retains all other trimmed,
lower-cased tokens — duplicates included — in their original order. -/
theorem claim6_keyword_filter (appName appSubtitle content : Str) :
    (∀ k ∈ getKeywordsFromContent appName appSubtitle content,
        k ∉ stopKeywords ∧ k ≠ pyLower appName ∧ k ≠ pyLower appSubtitle) ∧
    (∀ tok ∈ content.splitOn ',',
        normalizeToken tok ∉ stopKeywords →
        normalizeToken tok ≠ pyLower appName →
        normalizeToken tok ≠ pyLower appSubtitle →
        normalizeToken tok ∈ getKeywordsFromContent appName appSubtitle content) ∧
    (getKeywordsFromContent appName appSubtitle content).Sublist
      ((content.splitOn ',').map normalizeToken) ∧
    (∀ k ∈ getKeywordsFromContent appName appSubtitle content,
        ∃ tok ∈ content.splitOn ',', k = normalizeToken tok) := by
  refine ⟨?_, ?_, getKeywordsFromContent_sublist _ _ _, ?_⟩
  · intro k hk
    exact (mem_getKeywordsFromContent.1 hk).2
  · intro tok htok h1 h2 h3
    exact mem_getKeywordsFromContent.2
      ⟨List.mem_map_of_mem _ htok, h1, h2, h3⟩
  · intro k hk
    rcases List.mem_map.1 (mem_getKeywordsFromContent.1 hk).1 with ⟨tok, htok, rfl⟩
    exact ⟨tok, htok, rfl⟩

/-- Witness for C6 at a concrete input: the token `" Foo"` of
`"apple, Foo"` normalizes to `"foo"` and is retained. -/
theorem claim6_keyword_filter_witness :
    normalizeToken " Foo".toList ∈
      getKeywordsFromContent "x".toList "y".toList "apple, Foo".toList := by
  refine (claim6_keyword_filter "x".toList "y".toList "apple, Foo".toList).2.1
    " Foo".toList ?_ ?_ ?_ ?_ <;> decide

/-- C6 counterexample to the claim as stated: the filter does not
deduplicate — for content `"foo, foo"` both occurrences of `"foo"` are
retained, so the result is not the list of distinct retained tokens. -/
theorem claim6_counterexample :
    getKeywordsFromContent "x".toList "y".toList "foo, foo".toList
        = ["foo".toList, "foo".toList] ∧
    ¬ (getKeywordsFromContent "x".toList "y".toList "foo, foo".toList).Nodup := by
  exact ⟨rfl, by decide⟩

/-- C5 (amended: the competitor path applies the IDENTICAL filter as the
main app, including the main app's own-name/subtitle exclusion): a fetched
competitor page's keywords are extracted with the same comma-split, trim,
lower-case, stop-word filter, and any token equal (case-insensitively) to
the scraped MAIN app's name or subtitle is dropped from the competitor's
keyword list as well. -/
theorem claim5_competitor_filter (appName appSubtitle content : Str)
    (comp : CompetitorApp) :
    fetchCompetitorKeywords appName appSubtitle (.ok (some content)) comp
      = some ⟨comp.appname, getKeywordsFromContent appName appSubtitle content⟩ ∧
    (∀ k ∈ getKeywordsFromSoup appName appSubtitle (some content),
        k ≠ pyLower appName ∧ k ≠ pyLower appSubtitle) := by
  refine ⟨rfl, ?_⟩
  intro k hk
  exact (mem_getKeywordsFromContent.1 hk).2.2

/-- Witness for C5 at a concrete input. -/
theorem claim5_competitor_filter_witness :
    fetchCompetitorKeywords "Insta".toList "Sub".toList
        (.ok (some "bar".toList)) ⟨"Comp".toList, "u".toList⟩
      = some ⟨"Comp".toList,
          getKeywordsFromContent "Insta".toList "Sub".toList "bar".toList⟩ :=
  (claim5_competitor_filter "Insta".toList "Sub".toList "bar".toList
    ⟨"Comp".toList, "u".toList⟩).1

/-- C5 counterexample to the claim as stated: a competitor keyword equal
(case-insensitively) to the scraped app's own name (`"Insta"`) is NOT
retained in the competitor's keyword list — the self-name filter is applied
to competitor pages too, because `_fetch_competitor_keywords` reuses
`_get_keywords_from_soup` of the main scraper object. -/
theorem claim5_counterexample :
    fetchCompetitorKeywords "Insta".toList "Sub".toList
        (.ok (some "insta, foo".toList)) ⟨"Comp".toList, "u".toList⟩
      = some ⟨"Comp".toList, ["foo".toList]⟩ ∧
    "insta".toList ∉ ["foo".toList] := by
  exact ⟨rfl, by decide⟩

/-- Did the competitor fetch succeed (no exception)? -/
def fetchOk (r : Except Unit (Option Str)) : Bool :=
  match r with
  | .ok _ => true
  | .error _ => false

/-- The result entry produced for a successfully fetched competitor. -/
def competitorEntry (appName appSubtitle : Str)
    (fetch : CompetitorApp → Except Unit (Option Str)) (c : CompetitorApp) :
    CompetitorAppKeywords :=
  ⟨c.appname,
   match fetch c with
   | .ok content? => getKeywordsFromSoup appName appSubtitle content?
   | .error _ => []⟩

lemma filterMap_fetch (appName appSubtitle : Str)
    (fetch : CompetitorApp → Except Unit (Option Str)) :
    ∀ l : List CompetitorApp,
      l.filterMap (fun c => fetchCompetitorKeywords appName appSubtitle (fetch c) c)
        = (l.filter (fun c => fetchOk (fetch c))).map
            (competitorEntry appName appSubtitle fetch)
  | [] => rfl
  | c :: t => by
    rw [List.filterMap_cons, List.filter_cons,
      filterMap_fetch appName appSubtitle fetch t]
    cases hf : fetch c <;>
      simp [fetchCompetitorKeywords, fetchOk, competitorEntry, hf]

/-- C7: only the first 3 competitors (in document order) have fetch tasks
built; a failed fetch's competitor is omitted while every successful
competitor's entry appears in the result in the original order; the batch
is a total function of the individual fetch outcomes (no exception escapes
it), and it never returns more than 3 entries. -/
theorem claim7_competitor_batch (appName appSubtitle : Str)
    (fetch : CompetitorApp → Except Unit (Option Str))
    (competitors : List CompetitorApp) :
    (scrapeCompetitorsBatch appName appSubtitle fetch competitors).1
      = competitors.take 3 ∧
    (scrapeCompetitorsBatch appName appSubtitle fetch competitors).2
      = ((competitors.take 3).filter (fun c => fetchOk (fetch c))).map
          (competitorEntry appName appSubtitle fetch) ∧
    (scrapeCompetitorsBatch appName appSubtitle fetch competitors).2.length ≤ 3 := by
  refine ⟨rfl, filterMap_fetch appName appSubtitle fetch _, ?_⟩
  calc (scrapeCompetitorsBatch appName appSubtitle fetch competitors).2.length
      ≤ (competitors.take 3).length := List.length_filterMap_le _ _
    _ ≤ 3 := by simp [List.length_take]

/-! ### URL locale normalization (`AppStoreScraper._prepare_url`) -/

/-- The regex `\/[a-z]{2}\/` matches at the start of `s`. -/
def localeMatchAtHead : Str → Bool
  | a :: x :: y :: b :: _ => a == '/' && isLowerAZ x && isLowerAZ y && b == '/'
  | _ => false

/-- `re.search(r"\/[a-z]{2}\/", s)` succeeds: the pattern matches somewhere. -/
def hasLocaleMatch : Str → Bool
  | [] => false
  | c :: rest => localeMatchAtHead (c :: rest) || hasLocaleMatch rest

/-- `re.sub(r"\/[a-z]{2}\/", "/cc/", s)`: replace every non-overlapping
leftmost match, resuming the scan after the end of each match. -/
def subLocale (cc : Str) : Str → Str
  | a :: x :: y :: b :: rest =>
    if a == '/' && isLowerAZ x && isLowerAZ y && b == '/' then
      '/' :: (cc ++ '/' :: subLocale cc rest)
    else a :: subLocale cc (x :: y :: b :: rest)
  | s => s

/-- The store's domain path `"apps.apple.com/"` used by the
`app_url.replace(...)` fallback branch. -/
def storeDomain : Str :=
  ['a', 'p', 'p', 's', '.', 'a', 'p', 'p', 'l', 'e', '.', 'c', 'o', 'm', '/']

lemma storeDomain_eq_toList : storeDomain = "apps.apple.com/".toList := rfl

/-- The shared URL-preparation logic (`_prepare_url` in `scrapper.py`, and
the duplicate in `get_existing_app_data` of `typesense_client.py`): if a
two-letter locale segment is present anywhere, substitute the pattern;
otherwise insert `cc/` after every occurrence of the store's domain path. -/
def prepareUrlCore (url cc : Str) : Str :=
  if hasLocaleMatch url then subLocale cc url
  else pyReplace storeDomain (storeDomain ++ cc ++ ['/']) url

/-- `AppStoreScraper._prepare_url`: the constructor lower-cases the country
code before the preparation logic runs. -/
def prepare_url (app_url country_code : Str) : Str :=
  prepareUrlCore app_url (pyLower country_code)

lemma toLower_eq_self_of_lower {c : Char} (h : isLowerAZ c = true) :
    c.toLower = c := by
  simp only [isLowerAZ, Bool.and_eq_true, decide_eq_true_eq] at h
  show (if c.toNat ≥ 65 ∧ c.toNat ≤ 90 then Char.ofNat (c.toNat + 32) else c) = c
  rw [if_neg (by omega)]

lemma isLowerAZ_ne_slash {c : Char} (h : isLowerAZ c = true) : (c == '/') = false := by
  cases hc : c == '/'
  · rfl
  · exact absurd (eq_of_beq hc ▸ h) (by decide)

lemma localeMatchAtHead_false_of_head {c : Char} (t : Str)
    (hc : (c == '/') = false) : localeMatchAtHead (c :: t) = false := by
  match t with
  | [] => rfl
  | [x] => rfl
  | [x, y] => rfl
  | x :: y :: d :: rest => simp [localeMatchAtHead, hc]

lemma not_match_of_head {c : Char} {t : Str} (hc : (c == '/') = false) :
    ¬ localeMatchAtHead (c :: t) = true := by
  rw [localeMatchAtHead_false_of_head t hc]
  exact Bool.false_ne_true

/-- The pattern only looks at the first four characters. -/
lemma localeMatchAtHead_take : ∀ s : Str,
    localeMatchAtHead (s.take 4) = localeMatchAtHead s
  | [] => rfl
  | [_] => rfl
  | [_, _] => rfl
  | [_, _, _] => rfl
  | _ :: _ :: _ :: _ :: _ => rfl

/-- The character data the pattern can observe: slash-ness and
lowercase-letter-ness. -/
def charKind (c : Char) : Bool × Bool := (c == '/', isLowerAZ c)

def maskOf (s : Str) : List (Bool × Bool) := s.map charKind

def matchKinds : List (Bool × Bool) → Bool
  | (s1, _) :: (_, l2) :: (_, l3) :: (s4, _) :: _ => s1 && l2 && l3 && s4
  | _ => false

def hasKinds : List (Bool × Bool) → Bool
  | [] => false
  | m :: rest => matchKinds (m :: rest) || hasKinds rest

lemma localeMatchAtHead_eq_kinds : ∀ s : Str,
    localeMatchAtHead s = matchKinds (maskOf s)
  | [] => rfl
  | [_] => rfl
  | [_, _] => rfl
  | [_, _, _] => rfl
  | _ :: _ :: _ :: _ :: _ => rfl

lemma hasLocaleMatch_eq_kinds : ∀ s : Str,
    hasLocaleMatch s = hasKinds (maskOf s)
  | [] => rfl
  | c :: rest => by
    calc hasLocaleMatch (c :: rest)
        = (localeMatchAtHead (c :: rest) || hasLocaleMatch rest) := rfl
      _ = (matchKinds (maskOf (c :: rest)) || hasKinds (maskOf rest)) := by
          rw [localeMatchAtHead_eq_kinds, hasLocaleMatch_eq_kinds rest]
      _ = hasKinds (maskOf (c :: rest)) := rfl

lemma charKind_of_lower {c : Char} (h : isLowerAZ c = true) :
    charKind c = (false, true) := by
  simp [charKind, isLowerAZ_ne_slash h, h]

lemma subLocale_cons_match (cc : Str) (x y : Char) (rest : Str)
    (hx : isLowerAZ x = true) (hy : isLowerAZ y = true) :
    subLocale cc ('/' :: x :: y :: '/' :: rest)
      = '/' :: (cc ++ '/' :: subLocale cc rest) := by
  simp [subLocale, hx, hy]

lemma subLocale_cons_of_not_match (cc : Str) (c : Char) (t : Str)
    (h : localeMatchAtHead (c :: t) = false) :
    subLocale cc (c :: t) = c :: subLocale cc t := by
  match t with
  | [] => rfl
  | [x] => rfl
  | [x, y] => rfl
  | x :: y :: d :: rest =>
    have h' : (c == '/' && isLowerAZ x && isLowerAZ y && d == '/') = false := h
    simp only [subLocale, h', Bool.false_eq_true, if_false]

/-- Substitution preserves the observable mask (slash positions and
lowercase-letter positions), because the replacement `/ab/` has the same
mask as any match `/xy/`. -/
lemma maskOf_subLocale (a b : Char) (ha : isLowerAZ a = true)
    (hb : isLowerAZ b = true) :
    ∀ s : Str, maskOf (subLocale [a, b] s) = maskOf s
  | [] => rfl
  | [_] => rfl
  | [_, _] => rfl
  | [_, _, _] => rfl
  | c :: x :: y :: d :: rest => by
    by_cases hg : (c == '/' && isLowerAZ x && isLowerAZ y && d == '/') = true
    · have hg' := hg
      simp only [Bool.and_eq_true] at hg'
      obtain ⟨⟨⟨hc, hx⟩, hy⟩, hd⟩ := hg'
      simp only [subLocale, hg, if_true]
      show charKind '/' :: charKind a :: charKind b :: charKind '/' ::
          maskOf (subLocale [a, b] rest)
        = charKind c :: charKind x :: charKind y :: charKind d :: maskOf rest
      rw [maskOf_subLocale a b ha hb rest, eq_of_beq hc, eq_of_beq hd,
        charKind_of_lower ha, charKind_of_lower hb,
        charKind_of_lower hx, charKind_of_lower hy]
    · have hg' : (c == '/' && isLowerAZ x && isLowerAZ y && d == '/') = false :=
        Bool.eq_false_iff.mpr hg
      simp only [subLocale, hg', Bool.false_eq_true, if_false]
      show charKind c :: maskOf (subLocale [a, b] (x :: y :: d :: rest))
        = charKind c :: maskOf (x :: y :: d :: rest)
      rw [maskOf_subLocale a b ha hb (x :: y :: d :: rest)]

/-- `re.sub` with the locale pattern is idempotent (for a two-lowercase-letter
replacement code). -/
lemma subLocale_idem (a b : Char) (ha : isLowerAZ a = true)
    (hb : isLowerAZ b = true) :
    ∀ s : Str, subLocale [a, b] (subLocale [a, b] s) = subLocale [a, b] s
  | [] => rfl
  | [_] => rfl
  | [_, _] => rfl
  | [_, _, _] => rfl
  | c :: x :: y :: d :: rest => by
    by_cases hg : (c == '/' && isLowerAZ x && isLowerAZ y && d == '/') = true
    · have hg' := hg
      simp only [Bool.and_eq_true] at hg'
      obtain ⟨⟨⟨hc, hx⟩, hy⟩, hd⟩ := hg'
      have hceq : c = '/' := eq_of_beq hc
      have hdeq : d = '/' := eq_of_beq hd
      subst hceq hdeq
      rw [subLocale_cons_match [a, b] x y rest hx hy]
      rw [show (([a, b] : Str) ++ '/' :: subLocale [a, b] rest)
            = a :: b :: '/' :: subLocale [a, b] rest from rfl]
      rw [subLocale_cons_match [a, b] a b _ ha hb]
      rw [subLocale_idem a b ha hb rest]
      rfl
    · have hg' : (c == '/' && isLowerAZ x && isLowerAZ y && d == '/') = false :=
        Bool.eq_false_iff.mpr hg
      simp only [subLocale, hg', Bool.false_eq_true, if_false]
      have hmask := maskOf_subLocale a b ha hb (x :: y :: d :: rest)
      have hmatch : localeMatchAtHead
          (c :: subLocale [a, b] (x :: y :: d :: rest)) = false := by
        rw [localeMatchAtHead_eq_kinds]
        rw [show maskOf (c :: subLocale [a, b] (x :: y :: d :: rest))
              = charKind c :: maskOf (subLocale [a, b] (x :: y :: d :: rest)) from rfl]
        rw [hmask]
        rw [show (charKind c :: maskOf (x :: y :: d :: rest))
              = maskOf (c :: x :: y :: d :: rest) from rfl]
        rw [← localeMatchAtHead_eq_kinds]
        exact hg'
      rw [subLocale_cons_of_not_match _ _ _ hmatch,
        subLocale_idem a b ha hb (x :: y :: d :: rest)]

/-- `goodStr a b s`: every occurrence of the locale pattern in `s` reads
exactly `/ab/`. -/
def goodStr (a b : Char) : Str → Prop
  | [] => True
  | c :: t =>
    (localeMatchAtHead (c :: t) = true →
      startsWith ['/', a, b, '/'] (c :: t) = true) ∧ goodStr a b t

lemma goodStr_tail {a b : Char} {c : Char} {t : Str}
    (h : goodStr a b (c :: t)) : goodStr a b t := h.2

/-- If every occurrence of the pattern already reads `/ab/`, substitution
by `/ab/` is the identity. -/
lemma subLocale_eq_self_of_good (a b : Char) :
    ∀ s : Str, goodStr a b s → subLocale [a, b] s = s
  | [], _ => rfl
  | [_], _ => rfl
  | [_, _], _ => rfl
  | [_, _, _], _ => rfl
  | c :: x :: y :: d :: rest, h => by
    by_cases hg : (c == '/' && isLowerAZ x && isLowerAZ y && d == '/') = true
    · have hsw := h.1 hg
      simp only [startsWith, Bool.and_eq_true] at hsw
      obtain ⟨h1, h2, h3, h4, -⟩ := hsw
      have hc : c = '/' := (eq_of_beq h1).symm
      have hd : d = '/' := (eq_of_beq h4).symm
      have hx : a = x := eq_of_beq h2
      have hy : b = y := eq_of_beq h3
      subst hc hd
      subst hx
      subst hy
      simp only [Bool.and_eq_true] at hg
      obtain ⟨⟨⟨-, ha2⟩, hb2⟩, -⟩ := hg
      rw [subLocale_cons_match [a, b] a b rest ha2 hb2]
      rw [subLocale_eq_self_of_good a b rest
        (goodStr_tail (goodStr_tail (goodStr_tail (goodStr_tail h))))]
      rfl
    · have hg' : (c == '/' && isLowerAZ x && isLowerAZ y && d == '/') = false :=
        Bool.eq_false_iff.mpr hg
      rw [subLocale_cons_of_not_match [a, b] c (x :: y :: d :: rest) hg']
      rw [subLocale_eq_self_of_good a b (x :: y :: d :: rest) (goodStr_tail h)]

lemma hasLocaleMatch_iff : ∀ s : Str,
    hasLocaleMatch s = true ↔ ∃ i, localeMatchAtHead (s.drop i) = true
  | [] => by
    simp only [hasLocaleMatch, List.drop_nil]
    simp [localeMatchAtHead]
  | c :: t => by
    simp only [hasLocaleMatch, Bool.or_eq_true]
    constructor
    · rintro (h | h)
      · exact ⟨0, h⟩
      · obtain ⟨i, hi⟩ := (hasLocaleMatch_iff t).1 h
        exact ⟨i + 1, by simpa [List.drop_succ_cons] using hi⟩
    · rintro ⟨i, hi⟩
      cases i with
      | zero => exact Or.inl hi
      | succ j =>
        exact Or.inr ((hasLocaleMatch_iff t).2
          ⟨j, by simpa [List.drop_succ_cons] using hi⟩)

lemma hasLocaleMatch_of_match_drop (i : Nat) {s : Str}
    (h : localeMatchAtHead (s.drop i) = true) : hasLocaleMatch s = true :=
  (hasLocaleMatch_iff s).2 ⟨i, h⟩

lemma match_drop_false {s : Str} (h : hasLocaleMatch s = false) (n : Nat) :
    localeMatchAtHead (s.drop n) = false := by
  cases hm : localeMatchAtHead (s.drop n)
  · rfl
  · rw [hasLocaleMatch_of_match_drop n hm] at h
    exact Bool.noConfusion h

lemma hasLocaleMatch_drop_false {s : Str} (h : hasLocaleMatch s = false)
    (n : Nat) : hasLocaleMatch (s.drop n) = false := by
  cases hm : hasLocaleMatch (s.drop n)
  · rfl
  · obtain ⟨i, hi⟩ := (hasLocaleMatch_iff _).1 hm
    rw [List.drop_drop] at hi
    rw [hasLocaleMatch_of_match_drop (n + i) hi] at h
    exact Bool.noConfusion h

lemma hasLocaleMatch_append_right {s t : Str}
    (h : hasLocaleMatch (s ++ t) = false) : hasLocaleMatch t = false := by
  have := hasLocaleMatch_drop_false h s.length
  rwa [List.drop_left] at this

lemma goodStr_of_no_match (a b : Char) :
    ∀ s : Str, hasLocaleMatch s = false → goodStr a b s
  | [], _ => trivial
  | c :: t, h => by
    simp only [hasLocaleMatch, Bool.or_eq_false_iff] at h
    exact ⟨fun hm => absurd hm (by rw [h.1]; exact Bool.false_ne_true),
           goodStr_of_no_match a b t h.2⟩

/-- A string with no occurrence of the pattern is left unchanged by the
substitution. -/
lemma subLocale_eq_self_of_no_match (a b : Char) (s : Str)
    (h : hasLocaleMatch s = false) : subLocale [a, b] s = s :=
  subLocale_eq_self_of_good a b s (goodStr_of_no_match a b s h)

lemma startsWith_append_self : ∀ pat s : Str, startsWith pat (pat ++ s) = true
  | [], _ => rfl
  | p :: ps, s => by simp [startsWith, startsWith_append_self ps s]

lemma startsWith_take : ∀ (pat s : Str), startsWith pat s = true →
    ∀ n, n ≤ pat.length → s.take n = pat.take n
  | [], s, _, n, hn => by
    have hn0 : n = 0 := by simpa using hn
    subst hn0
    rfl
  | p :: ps, [], h, n, hn => by simp [startsWith] at h
  | p :: ps, c :: cs, h, n, hn => by
    simp only [startsWith, Bool.and_eq_true] at h
    obtain ⟨hpc, h2⟩ := h
    cases n with
    | zero => rfl
    | succ m =>
      simp only [List.take_succ_cons]
      rw [startsWith_take ps cs h2 m (by simpa using hn)]
      rw [eq_of_beq hpc]

lemma startsWith_length_le : ∀ {pat s : Str},
    startsWith pat s = true → pat.length ≤ s.length
  | [], _, _ => by simp
  | p :: ps, [], h => by simp [startsWith] at h
  | p :: ps, c :: cs, h => by
    simp only [startsWith, Bool.and_eq_true] at h
    simpa using startsWith_length_le h.2

lemma eq_append_of_startsWith : ∀ {pat s : Str}, startsWith pat s = true →
    s = pat ++ s.drop pat.length
  | [], s, _ => rfl
  | p :: ps, [], h => by simp [startsWith] at h
  | p :: ps, c :: cs, h => by
    simp only [startsWith, Bool.and_eq_true] at h
    obtain ⟨hpc, h2⟩ := h
    rw [← eq_of_beq hpc]
    show p :: cs = p :: (ps ++ cs.drop ps.length)
    rw [← eq_append_of_startsWith h2]

lemma pyReplace_nil (pat rep : Str) : pyReplace pat rep [] = [] := by
  simp [pyReplace]

lemma pyReplace_cons_pos (pat rep : Str) (c : Char) (rest : Str)
    (hp : 0 < pat.length) (hst : startsWith pat (c :: rest) = true) :
    pyReplace pat rep (c :: rest)
      = rep ++ pyReplace pat rep ((c :: rest).drop pat.length) := by
  rw [pyReplace]
  rw [dif_pos ⟨hp, hst⟩]

lemma pyReplace_cons_neg (pat rep : Str) (c : Char) (rest : Str)
    (hst : startsWith pat (c :: rest) = false) :
    pyReplace pat rep (c :: rest) = c :: pyReplace pat rep rest := by
  rw [pyReplace]
  rw [dif_neg]
  rintro ⟨-, hcon⟩
  rw [hst] at hcon
  exact Bool.noConfusion hcon

lemma pyReplace_eq_self_of_not_sub (pat rep : Str) :
    ∀ s : Str, hasSub pat s = false → pyReplace pat rep s = s
  | [], _ => pyReplace_nil pat rep
  | c :: rest, h => by
    simp only [hasSub, Bool.or_eq_false_iff] at h
    rw [pyReplace_cons_neg pat rep c rest h.1,
      pyReplace_eq_self_of_not_sub pat rep rest h.2]

/-- The first `n ≤ pat.length` characters survive a replacement whose
replacement string extends the pattern. -/
lemma take_pyReplace (pat rep : Str) (hp : 0 < pat.length)
    (hpr : startsWith pat rep = true) :
    ∀ s : Str, ∀ n, n ≤ pat.length → (pyReplace pat rep s).take n = s.take n
  | [], n, _ => by rw [pyReplace_nil]
  | c :: rest, n, hn => by
    by_cases hst : startsWith pat (c :: rest) = true
    · rw [pyReplace_cons_pos pat rep c rest hp hst]
      rw [List.take_append_eq_append_take]
      rw [Nat.sub_eq_zero_of_le (le_trans hn (startsWith_length_le hpr))]
      rw [List.take_zero, List.append_nil]
      rw [startsWith_take pat rep hpr n hn]
      rw [startsWith_take pat (c :: rest) hst n hn]
    · rw [pyReplace_cons_neg pat rep c rest (Bool.eq_false_iff.mpr hst)]
      cases n with
      | zero => rfl
      | succ m =>
        simp only [List.take_succ_cons]
        rw [take_pyReplace pat rep hp hpr rest m (by omega)]

/-- If the domain path occurs in `s`, inserting `ab/` after it creates a
locale match in the result. -/
lemma hasLocaleMatch_pyReplace_of_sub (a b : Char) (ha : isLowerAZ a = true)
    (hb : isLowerAZ b = true) :
    ∀ s : Str, hasSub storeDomain s = true →
      hasLocaleMatch (pyReplace storeDomain (storeDomain ++ [a, b, '/']) s) = true
  | [], h => by simp [hasSub, storeDomain, startsWith] at h
  | c :: rest, h => by
    by_cases hst : startsWith storeDomain (c :: rest) = true
    · rw [pyReplace_cons_pos storeDomain _ c rest (by decide) hst]
      apply hasLocaleMatch_of_match_drop 14
      show localeMatchAtHead ('/' :: a :: b :: '/' ::
        pyReplace storeDomain (storeDomain ++ [a, b, '/'])
          ((c :: rest).drop storeDomain.length)) = true
      simp [localeMatchAtHead, ha, hb]
    · have hsub : hasSub storeDomain rest = true := by
        have h' := h
        simp only [hasSub, Bool.or_eq_true] at h'
        rcases h' with h' | h'
        · exact absurd h' hst
        · exact h'
      rw [pyReplace_cons_neg storeDomain _ c rest (Bool.eq_false_iff.mpr hst)]
      have ih := hasLocaleMatch_pyReplace_of_sub a b ha hb rest hsub
      simp [hasLocaleMatch, ih]
termination_by s => s.length

/-- Core invariant for idempotence of the fallback branch: if `s` itself has
no locale match, then in the result of inserting `ab/` after every occurrence
of the domain path, every locale-pattern occurrence reads exactly `/ab/`. -/
lemma goodStr_pyReplace (a b : Char) (ha : isLowerAZ a = true)
    (hb : isLowerAZ b = true) :
    ∀ s : Str, hasLocaleMatch s = false →
      goodStr a b (pyReplace storeDomain (storeDomain ++ [a, b, '/']) s)
  | [], _ => by rw [pyReplace_nil]; trivial
  | c :: rest, hs => by
    by_cases hst : startsWith storeDomain (c :: rest) = true
    · rw [pyReplace_cons_pos storeDomain _ c rest (by decide) hst]
      obtain ⟨u', hu'⟩ : ∃ u', (c :: rest : Str) = storeDomain ++ u' :=
        ⟨_, eq_append_of_startsWith hst⟩
      have hlen : u'.length < (c :: rest).length := by
        have hl := congrArg List.length hu'
        simp only [List.length_append, List.length_cons, storeDomain] at hl ⊢
        omega
      rw [show ((c :: rest).drop storeDomain.length : Str) = u' from by
        rw [hu']; exact List.drop_left _ _]
      have hs' : hasLocaleMatch (storeDomain ++ u') = false := by
        rw [← hu']; exact hs
      have hsu' : hasLocaleMatch u' = false :=
        hasLocaleMatch_append_right hs'
      have ihgood := goodStr_pyReplace a b ha hb u' hsu'
      have hm14' : localeMatchAtHead ('/' :: u') = false := by
        have h14 := match_drop_false hs' 14
        rwa [show ((storeDomain ++ u').drop 14 : Str) = '/' :: u' from rfl] at h14
      have hT3 : (pyReplace storeDomain (storeDomain ++ [a, b, '/']) u').take 3
          = u'.take 3 :=
        take_pyReplace storeDomain _ (by decide)
          (startsWith_append_self storeDomain [a, b, '/']) u' 3 (by decide)
      have hmT : localeMatchAtHead
          ('/' :: pyReplace storeDomain (storeDomain ++ [a, b, '/']) u') = false := by
        rw [← localeMatchAtHead_take]
        rw [show ('/' :: pyReplace storeDomain (storeDomain ++ [a, b, '/']) u').take 4
              = '/' :: (pyReplace storeDomain (storeDomain ++ [a, b, '/']) u').take 3
            from rfl]
        rw [hT3]
        rw [show ('/' :: u'.take 3 : Str) = ('/' :: u').take 4 from rfl]
        rw [localeMatchAtHead_take]
        exact hm14'
      show goodStr a b ('a' :: 'p' :: 'p' :: 's' :: '.' :: 'a' :: 'p' :: 'p' ::
        'l' :: 'e' :: '.' :: 'c' :: 'o' :: 'm' :: '/' :: a :: b :: '/' ::
        pyReplace storeDomain (storeDomain ++ [a, b, '/']) u')
      refine ⟨fun h => absurd h (not_match_of_head (by decide)),
        fun h => absurd h (not_match_of_head (by decide)),
        fun h => absurd h (not_match_of_head (by decide)),
        fun h => absurd h (not_match_of_head (by decide)),
        fun h => absurd h (not_match_of_head (by decide)),
        fun h => absurd h (not_match_of_head (by decide)),
        fun h => absurd h (not_match_of_head (by decide)),
        fun h => absurd h (not_match_of_head (by decide)),
        fun h => absurd h (not_match_of_head (by decide)),
        fun h => absurd h (not_match_of_head (by decide)),
        fun h => absurd h (not_match_of_head (by decide)),
        fun h => absurd h (not_match_of_head (by decide)),
        fun h => absurd h (not_match_of_head (by decide)),
        fun h => absurd h (not_match_of_head (by decide)),
        fun _ => by simp [startsWith, ha, hb],
        fun h => absurd h (not_match_of_head (isLowerAZ_ne_slash ha)),
        fun h => absurd h (not_match_of_head (isLowerAZ_ne_slash hb)),
        fun h => absurd h (by rw [hmT]; exact Bool.noConfusion),
        ihgood⟩
    · have hstf : startsWith storeDomain (c :: rest) = false :=
        Bool.eq_false_iff.mpr hst
      rw [pyReplace_cons_neg storeDomain _ c rest hstf]
      have hparts := hs
      simp only [hasLocaleMatch, Bool.or_eq_false_iff] at hparts
      refine ⟨?_, goodStr_pyReplace a b ha hb rest hparts.2⟩
      intro hmt
      exfalso
      have h3 : (pyReplace storeDomain (storeDomain ++ [a, b, '/']) rest).take 3
          = rest.take 3 :=
        take_pyReplace storeDomain _ (by decide)
          (startsWith_append_self storeDomain [a, b, '/']) rest 3 (by decide)
      have heq : localeMatchAtHead
            (c :: pyReplace storeDomain (storeDomain ++ [a, b, '/']) rest)
          = localeMatchAtHead (c :: rest) := by
        rw [← localeMatchAtHead_take
          (c :: pyReplace storeDomain (storeDomain ++ [a, b, '/']) rest)]
        rw [show (c :: pyReplace storeDomain (storeDomain ++ [a, b, '/']) rest).take 4
              = c :: (pyReplace storeDomain (storeDomain ++ [a, b, '/']) rest).take 3
            from rfl]
        rw [h3]
        rw [show (c :: rest.take 3 : Str) = (c :: rest).take 4 from rfl]
        rw [localeMatchAtHead_take]
      rw [heq, hparts.1] at hmt
      exact Bool.noConfusion hmt
termination_by s => s.length

lemma bool_not_true {x : Bool} (h : x = false) : ¬ x = true :=
  fun hc => Bool.noConfusion (h ▸ hc)

/-- The substitution scan walks through a match-free prefix untouched. -/
lemma subLocale_prefix_walk (cc : Str) : ∀ pre v : Str,
    (∀ i, i < pre.length → localeMatchAtHead ((pre ++ v).drop i) = false) →
    subLocale cc (pre ++ v) = pre ++ subLocale cc v
  | [], _, _ => rfl
  | c :: pre', v, h => by
    have h0 : localeMatchAtHead (c :: (pre' ++ v)) = false := by
      have := h 0 (by simp)
      simpa using this
    show subLocale cc (c :: (pre' ++ v)) = c :: (pre' ++ subLocale cc v)
    rw [subLocale_cons_of_not_match cc c (pre' ++ v) h0]
    rw [subLocale_prefix_walk cc pre' v (fun i hi => by
      have := h (i + 1) (by simpa using Nat.succ_lt_succ hi)
      simpa [List.cons_append, List.drop_succ_cons] using this)]

lemma pyReplace_append_self (pat rep : Str) (hp : 0 < pat.length) (post : Str) :
    pyReplace pat rep (pat ++ post) = rep ++ pyReplace pat rep post := by
  cases pat with
  | nil => simp at hp
  | cons q qs =>
    rw [show ((q :: qs) ++ post : Str) = q :: (qs ++ post) from rfl]
    rw [pyReplace_cons_pos (q :: qs) rep q (qs ++ post) (by simp)
      (startsWith_append_self _ _)]
    rw [show ((q :: (qs ++ post)).drop (q :: qs).length : Str) = post from by
      rw [show (q :: (qs ++ post) : Str) = (q :: qs) ++ post from rfl]
      exact List.drop_left _ _]

/-- `str.replace` on a string containing exactly one occurrence of the
pattern (at the end of `pre`) rewrites just that occurrence. -/
lemma pyReplace_append_occurrence (rep : Str) : ∀ pre post : Str,
    (∀ i, i < pre.length →
      startsWith storeDomain ((pre ++ storeDomain ++ post).drop i) = false) →
    hasSub storeDomain post = false →
    pyReplace storeDomain rep (pre ++ storeDomain ++ post) = pre ++ rep ++ post
  | [], post, _, hpost => by
    show pyReplace storeDomain rep (storeDomain ++ post) = rep ++ post
    rw [pyReplace_append_self storeDomain rep (by decide) post]
    rw [pyReplace_eq_self_of_not_sub storeDomain rep post hpost]
  | c :: pre', post, hpre, hpost => by
    have h0 : startsWith storeDomain (c :: ((pre' ++ storeDomain) ++ post)) = false := by
      have := hpre 0 (by simp)
      simpa using this
    show pyReplace storeDomain rep (c :: ((pre' ++ storeDomain) ++ post))
      = c :: ((pre' ++ rep) ++ post)
    rw [pyReplace_cons_neg storeDomain rep c ((pre' ++ storeDomain) ++ post) h0]
    rw [show ((pre' ++ storeDomain) ++ post : Str) = pre' ++ storeDomain ++ post from rfl]
    rw [pyReplace_append_occurrence rep pre' post (fun i hi => by
      have := hpre (i + 1) (by simpa using Nat.succ_lt_succ hi)
      simpa [List.cons_append, List.drop_succ_cons] using this) hpost]

/-- C4: locale normalization.  (i) For a URL that contains the store's
domain path exactly once and no two-letter locale segment, normalization
inserts `/cc/` immediately after the domain path.  (ii) For a URL whose
unique locale segment is `/xy/`, that segment is replaced by `/cc/`.
(iii) The operation is idempotent for every URL and every two-lowercase-
letter code.  (iv) The scraper entry point `prepare_url` is this logic
after lower-casing the country code, which fixes an already-lowercase code. -/
theorem claim4_normalize_locale :
    (∀ pre post : Str, ∀ a b : Char, isLowerAZ a = true → isLowerAZ b = true →
      hasLocaleMatch (pre ++ storeDomain ++ post) = false →
      (∀ i, i < pre.length →
        startsWith storeDomain ((pre ++ storeDomain ++ post).drop i) = false) →
      hasSub storeDomain post = false →
      prepareUrlCore (pre ++ storeDomain ++ post) [a, b]
        = pre ++ storeDomain ++ a :: b :: '/' :: post) ∧
    (∀ pre post : Str, ∀ a b x y : Char, isLowerAZ a = true → isLowerAZ b = true →
      isLowerAZ x = true → isLowerAZ y = true →
      (∀ i, i < pre.length →
        localeMatchAtHead ((pre ++ '/' :: x :: y :: '/' :: post).drop i) = false) →
      hasLocaleMatch post = false →
      prepareUrlCore (pre ++ '/' :: x :: y :: '/' :: post) [a, b]
        = pre ++ '/' :: a :: b :: '/' :: post) ∧
    (∀ url : Str, ∀ a b : Char, isLowerAZ a = true → isLowerAZ b = true →
      prepareUrlCore (prepareUrlCore url [a, b]) [a, b]
        = prepareUrlCore url [a, b]) ∧
    (∀ url : Str, ∀ a b : Char, isLowerAZ a = true → isLowerAZ b = true →
      prepare_url url [a, b] = prepareUrlCore url [a, b]) := by
  refine ⟨?insert, ?replace, ?idem, ?entry⟩
  case insert =>
    intro pre post a b ha hb hnm hpre hpost
    have h1 : prepareUrlCore (pre ++ storeDomain ++ post) [a, b]
        = pyReplace storeDomain (storeDomain ++ [a, b] ++ ['/'])
            (pre ++ storeDomain ++ post) := by
      rw [prepareUrlCore, if_neg (bool_not_true hnm)]
    rw [h1]
    rw [pyReplace_append_occurrence (storeDomain ++ [a, b] ++ ['/']) pre post hpre hpost]
    simp [List.append_assoc]
  case replace =>
    intro pre post a b x y ha hb hx hy hpre hpost
    have hmatch : localeMatchAtHead
        ((pre ++ '/' :: x :: y :: '/' :: post).drop pre.length) = true := by
      rw [List.drop_left]
      simp [localeMatchAtHead, hx, hy]
    have hm : hasLocaleMatch (pre ++ '/' :: x :: y :: '/' :: post) = true :=
      hasLocaleMatch_of_match_drop pre.length hmatch
    have h1 : prepareUrlCore (pre ++ '/' :: x :: y :: '/' :: post) [a, b]
        = subLocale [a, b] (pre ++ '/' :: x :: y :: '/' :: post) := by
      rw [prepareUrlCore, if_pos hm]
    rw [h1]
    rw [subLocale_prefix_walk [a, b] pre ('/' :: x :: y :: '/' :: post) hpre]
    rw [subLocale_cons_match [a, b] x y post hx hy]
    rw [subLocale_eq_self_of_no_match a b post hpost]
    rfl
  case idem =>
    intro url a b ha hb
    by_cases hm : hasLocaleMatch url = true
    · have h1 : prepareUrlCore url [a, b] = subLocale [a, b] url := by
        rw [prepareUrlCore, if_pos hm]
      rw [h1]
      have hm2 : hasLocaleMatch (subLocale [a, b] url) = true := by
        rw [hasLocaleMatch_eq_kinds, maskOf_subLocale a b ha hb,
          ← hasLocaleMatch_eq_kinds]
        exact hm
      have h2 : prepareUrlCore (subLocale [a, b] url) [a, b]
          = subLocale [a, b] (subLocale [a, b] url) := by
        rw [prepareUrlCore, if_pos hm2]
      rw [h2]
      exact subLocale_idem a b ha hb url
    · have hmf : hasLocaleMatch url = false := Bool.eq_false_iff.mpr hm
      have h1 : prepareUrlCore url [a, b]
          = pyReplace storeDomain (storeDomain ++ [a, b] ++ ['/']) url := by
        rw [prepareUrlCore, if_neg hm]
      rw [h1]
      by_cases hsub : hasSub storeDomain url = true
      · have ht : hasLocaleMatch
            (pyReplace storeDomain (storeDomain ++ [a, b] ++ ['/']) url) = true :=
          hasLocaleMatch_pyReplace_of_sub a b ha hb url hsub
        have h2 : prepareUrlCore
              (pyReplace storeDomain (storeDomain ++ [a, b] ++ ['/']) url) [a, b]
            = subLocale [a, b]
                (pyReplace storeDomain (storeDomain ++ [a, b] ++ ['/']) url) := by
          rw [prepareUrlCore, if_pos ht]
        rw [h2]
        apply subLocale_eq_self_of_good
        exact goodStr_pyReplace a b ha hb url hmf
      · have hsubf : hasSub storeDomain url = false := Bool.eq_false_iff.mpr hsub
        rw [pyReplace_eq_self_of_not_sub storeDomain _ url hsubf]
        rw [h1]
        exact pyReplace_eq_self_of_not_sub storeDomain _ url hsubf
  case entry =>
    intro url a b ha hb
    show prepareUrlCore url (pyLower [a, b]) = prepareUrlCore url [a, b]
    rw [show pyLower [a, b] = [a, b] from by
      simp [pyLower, toLower_eq_self_of_lower ha, toLower_eq_self_of_lower hb]]

/-- Witness for C4 at concrete URLs with country code `us`. -/
theorem claim4_normalize_locale_witness :
    prepareUrlCore ("https://".toList ++ storeDomain ++ "app/x123".toList)
        ['u', 's']
      = "https://".toList ++ storeDomain ++ 'u' :: 's' :: '/' :: "app/x123".toList ∧
    prepareUrlCore ("https://apps.apple.com".toList ++
        '/' :: 'g' :: 'b' :: '/' :: "app/x1".toList) ['u', 's']
      = "https://apps.apple.com".toList ++ '/' :: 'u' :: 's' :: '/' :: "app/x1".toList ∧
    prepareUrlCore
        (prepareUrlCore "https://apps.apple.com/gb/app/x1".toList ['u', 's']) ['u', 's']
      = prepareUrlCore "https://apps.apple.com/gb/app/x1".toList ['u', 's'] ∧
    prepare_url "https://apps.apple.com/gb/app/x1".toList ['u', 's']
      = prepareUrlCore "https://apps.apple.com/gb/app/x1".toList ['u', 's'] :=
  ⟨claim4_normalize_locale.1 "https://".toList "app/x123".toList 'u' 's'
      (by decide) (by decide) (by decide) (by decide) (by decide),
   claim4_normalize_locale.2.1 "https://apps.apple.com".toList "app/x1".toList
      'u' 's' 'g' 'b'
      (by decide) (by decide) (by decide) (by decide) (by decide) (by decide),
   claim4_normalize_locale.2.2.1 "https://apps.apple.com/gb/app/x1".toList
      'u' 's' (by decide) (by decide),
   claim4_normalize_locale.2.2.2 "https://apps.apple.com/gb/app/x1".toList
      'u' 's' (by decide) (by decide)⟩

/-! ### JSON values and the AI keyword generator (`aikeyword.py`) -/

/-- The fragment of Python values that `json.loads` can produce (floats are
out of scope for the claims settled here). -/
inductive PyVal where
  | vnull : PyVal
  | vbool : Bool → PyVal
  | vint : Int → PyVal
  | vstr : Str → PyVal
  | vlist : List PyVal → PyVal
  | vdict : List (Str × PyVal) → PyVal

instance : Inhabited PyVal := ⟨.vnull⟩

/-- The Python exception kinds relevant to `generateKeywords`: the `except`
clause catches `json.JSONDecodeError` and `TypeError` only. -/
inductive PyErr where
  | typeErr : PyErr
  | keyErr : PyErr
  | decodeErr : PyErr
  | otherErr : Str → PyErr
deriving DecidableEq

/-- Python `==` against a string key: `False` unless the value is an equal
string (no exception). -/
def pyEqStr (key : Str) : PyVal → Bool
  | .vstr s => s == key
  | _ => false

/-- Python `key in v`: dict-key membership, list membership, substring test
for strings; `TypeError` on int/bool/None. -/
def pyContains (key : Str) (v : PyVal) : Except PyErr Bool :=
  match v with
  | .vdict es => .ok (es.any (fun e => e.1 == key))
  | .vlist xs => .ok (xs.any (pyEqStr key))
  | .vstr s => .ok (hasSub key s)
  | _ => .error .typeErr

/-- Python `v[key]` for a string key: dict lookup (`KeyError` when absent);
`TypeError` on every other value shape. -/
def pySubscript (v : PyVal) (key : Str) : Except PyErr PyVal :=
  match v with
  | .vdict es =>
    match es.find? (fun e => e.1 == key) with
    | some e => .ok e.2
    | none => .error .keyErr
  | _ => .error .typeErr

/-- Python `s.find(c)` (as an `Option` instead of `-1`). -/
def strFind (c : Char) : Str → Option Nat
  | [] => none
  | d :: rest => if d == c then some 0 else (strFind c rest).map (· + 1)

/-- Python `s.rfind(c)` (as an `Option` instead of `-1`). -/
def strRfind (c : Char) (s : Str) : Option Nat :=
  (strFind c s.reverse).map (fun i => s.length - 1 - i)

/-- Lines 91–98 of `aikeyword.py`: locate the first opening brace and the
last closing brace; when both exist with `end_index > start_index`, slice
`response_text[start_index : end_index + 1]`; otherwise `None`. -/
def extractJsonSlice (text : Str) : Option Str :=
  match strFind '\x7b' text, strRfind '\x7d' text with
  | some i, some j =>
    if i < j then some ((text.drop i).take (j + 1 - i)) else none
  | _, _ => none

def aikeywordsKey : Str := "aikeywords".toList
def appKeywordsKey : Str := "appKeywords".toList

/-- Second half of the validation conjunction:
`"appKeywords" in data["aikeywords"]` once the subscripted value is in hand. -/
def validateStep2 (data inner : PyVal) : Except PyErr (Option PyVal) :=
  match pyContains appKeywordsKey inner with
  | .error e => .error e
  | .ok b2 => if b2 then .ok (some data) else .ok none

/-- The subscript `data["aikeywords"]` followed by the second membership
test; reached only when the first membership test returned `True`. -/
def validateStep1 (data : PyVal) : Except PyErr (Option PyVal) :=
  match pySubscript data aikeywordsKey with
  | .error e => .error e
  | .ok inner => validateStep2 data inner

/-- Lines 101–105 of `aikeyword.py`:
`if "aikeywords" in data and "appKeywords" in data["aikeywords"]` with
Python's short-circuit `and`; each membership test or subscript may raise. -/
def validateData (data : PyVal) : Except PyErr (Option PyVal) :=
  match pyContains aikeywordsKey data with
  | .error e => .error e
  | .ok b1 => if b1 then validateStep1 data else .ok none

/-- The body of the `try` block, given the reply content and a `json.loads`
oracle (`none` models `json.JSONDecodeError`).  A non-string content falls
through to `return None`. -/
def processContent (loads : Str → Option PyVal) (content : PyVal) :
    Except PyErr (Option PyVal) :=
  match content with
  | .vstr text =>
    match extractJsonSlice text with
    | none => .ok none
    | some js =>
      match loads js with
      | none => .error .decodeErr
      | some data => validateData data
  | _ => .ok none

/-- The `except (json.JSONDecodeError, TypeError)` clause: those two error
kinds are converted to a `None` return; any other exception propagates. -/
def catchDecodeAndType (r : Except PyErr (Option PyVal)) :
    Except PyErr (Option PyVal) :=
  match r with
  | .error .decodeErr => .ok none
  | .error .typeErr => .ok none
  | other => other

/-- `AIKeywordGenerator.generateKeywords`: the `self.model.invoke(messages)`
call sits OUTSIDE the `try` block (line 84), so an exception raised by the
model call propagates to the caller; only the post-invoke parsing and
validation is guarded. -/
def generateKeywords (invoke : Except PyErr PyVal)
    (loads : Str → Option PyVal) : Except PyErr (Option PyVal) :=
  match invoke with
  | .error e => .error e
  | .ok content => catchDecodeAndType (processContent loads content)

/-- Second half of the validation as a plain predicate. -/
def passes2 (inner : PyVal) : Bool :=
  match pyContains appKeywordsKey inner with
  | .ok b2 => b2
  | .error _ => false

/-- Subscript plus second membership test as a plain predicate. -/
def passes1 (data : PyVal) : Bool :=
  match pySubscript data aikeywordsKey with
  | .ok inner => passes2 inner
  | .error _ => false

/-- The validation outcome as a plain predicate: the parsed value passes
when `"aikeywords"` is a member and the subscripted value has
`"appKeywords"` as a member — a membership test, not a list-shape check. -/
def passesValidation (data : PyVal) : Bool :=
  (match pyContains aikeywordsKey data with
   | .ok b => b
   | .error _ => false) && passes1 data

lemma pyContains_cases (k : Str) (v : PyVal) :
    pyContains k v = .error .typeErr ∨ ∃ b, pyContains k v = .ok b := by
  cases v <;> simp [pyContains]

lemma pySubscript_dict_of_any {es : List (Str × PyVal)}
    (hb : es.any (fun e => e.1 == aikeywordsKey) = true) :
    ∃ v, pySubscript (PyVal.vdict es) aikeywordsKey = Except.ok v := by
  have hsome : (es.find? (fun e => e.1 == aikeywordsKey)).isSome := by
    rw [List.find?_isSome]
    simpa [List.any_eq_true] using hb
  obtain ⟨ev, hev⟩ := Option.isSome_iff_exists.mp hsome
  refine ⟨ev.2, ?_⟩
  show (match es.find? (fun e => e.1 == aikeywordsKey) with
        | some e => Except.ok e.2
        | none => Except.error PyErr.keyErr) = Except.ok ev.2
  rw [hev]

/-- Guarded validation never lets an exception escape: a `KeyError` is
impossible (the subscript is only reached when the key-membership test
succeeded on a dict), and every `TypeError` is caught. -/
lemma catch_validateData_eq (data : PyVal) :
    catchDecodeAndType (validateData data)
      = .ok (if passesValidation data then some data else none) := by
  rcases pyContains_cases aikeywordsKey data with h1 | ⟨b1, h1⟩
  · have hval : validateData data = Except.error PyErr.typeErr := by
      unfold validateData
      rw [h1]
    have hpass : passesValidation data = false := by
      unfold passesValidation
      rw [h1]
      rfl
    rw [hval, hpass]
    rfl
  · cases b1 with
    | false =>
      have hval : validateData data = Except.ok none := by
        unfold validateData
        rw [h1]
        rfl
      have hpass : passesValidation data = false := by
        unfold passesValidation
        rw [h1]
        rfl
      rw [hval, hpass]
      rfl
    | true =>
      have hval : validateData data = validateStep1 data := by
        unfold validateData
        rw [h1]
        rfl
      have hpass : passesValidation data = passes1 data := by
        unfold passesValidation
        rw [h1]
        rfl
      rw [hval, hpass]
      cases data with
      | vnull => exact absurd h1 (by simp [pyContains])
      | vbool bb => exact absurd h1 (by simp [pyContains])
      | vint n => exact absurd h1 (by simp [pyContains])
      | vstr s => rfl
      | vlist xs => rfl
      | vdict es =>
        have hb : es.any (fun e => e.1 == aikeywordsKey) = true := by
          have h1' := h1
          rw [show pyContains aikeywordsKey (PyVal.vdict es)
                = Except.ok (es.any (fun e => e.1 == aikeywordsKey)) from rfl] at h1'
          injection h1'
        obtain ⟨v, hv⟩ := pySubscript_dict_of_any hb
        have hs1 : validateStep1 (PyVal.vdict es) = validateStep2 (PyVal.vdict es) v := by
          unfold validateStep1
          rw [hv]
        have hp1 : passes1 (PyVal.vdict es) = passes2 v := by
          unfold passes1
          rw [hv]
        rw [hs1, hp1]
        rcases pyContains_cases appKeywordsKey v with h2 | ⟨b2, h2⟩
        · have hv2 : validateStep2 (PyVal.vdict es) v = Except.error PyErr.typeErr := by
            unfold validateStep2
            rw [h2]
          have hp2 : passes2 v = false := by
            unfold passes2
            rw [h2]
          rw [hv2, hp2]
          rfl
        · have hv2 : validateStep2 (PyVal.vdict es) v
              = (if b2 then Except.ok (some (PyVal.vdict es)) else Except.ok none) := by
            unfold validateStep2
            rw [h2]
          have hp2 : passes2 v = b2 := by
            unfold passes2
            rw [h2]
          rw [hv2, hp2]
          cases b2 <;> rfl

lemma processContent_vstr (loads : Str → Option PyVal) (text : Str) :
    processContent loads (.vstr text)
      = match extractJsonSlice text with
        | none => .ok none
        | some js =>
          match loads js with
          | none => .error .decodeErr
          | some data => validateData data := rfl

/-- C3 (amended: only failures occurring after a successful model call are
value-returned).  For every reply of a reachable model, any parse failure,
type mismatch, or missing key is value-returned as null or a keyword set
across the component boundary; but an unreachable model's exception is
raised by `model.invoke`, which sits outside the `try` block, and
propagates to the caller as an exception. -/
theorem claim3_synthesize_failures (loads : Str → Option PyVal)
    (content : PyVal) :
    (∃ r : Option PyVal, generateKeywords (Except.ok content) loads = .ok r) ∧
    (∀ e : PyErr, generateKeywords (Except.error e) loads = .error e) := by
  refine ⟨?_, fun e => rfl⟩
  show ∃ r, catchDecodeAndType (processContent loads content) = .ok r
  cases content with
  | vnull => exact ⟨none, rfl⟩
  | vbool bb => exact ⟨none, rfl⟩
  | vint n => exact ⟨none, rfl⟩
  | vlist xs => exact ⟨none, rfl⟩
  | vdict es => exact ⟨none, rfl⟩
  | vstr text =>
    cases hx : extractJsonSlice text with
    | none =>
      refine ⟨none, ?_⟩
      rw [processContent_vstr, hx]
      rfl
    | some js =>
      cases hl : loads js with
      | none =>
        refine ⟨none, ?_⟩
        rw [processContent_vstr, hx]
        show catchDecodeAndType (match loads js with
          | none => Except.error PyErr.decodeErr
          | some data => validateData data) = Except.ok none
        rw [hl]
        rfl
      | some data =>
        refine ⟨if passesValidation data then some data else none, ?_⟩
        rw [processContent_vstr, hx]
        show catchDecodeAndType (match loads js with
          | none => Except.error PyErr.decodeErr
          | some data => validateData data) = _
        rw [hl]
        exact catch_validateData_eq data

/-- C3 counterexample to the claim as stated: with the language model
unreachable, `generateKeywords` raises the transport exception instead of
value-returning null — `model.invoke` is outside the `try` block. -/
theorem claim3_counterexample :
    generateKeywords (Except.error (PyErr.otherErr "connection refused".toList))
        (fun _ => none)
      = Except.error (PyErr.otherErr "connection refused".toList) ∧
    ∀ r : Option PyVal,
      generateKeywords (Except.error (PyErr.otherErr "connection refused".toList))
          (fun _ => none)
        ≠ Except.ok r := by
  exact ⟨rfl, fun r h => Except.noConfusion h⟩

/-- C9 (amended: the structural validation is a membership test — the
`appKeywords` member need not be a list).  JSON extraction takes the
substring from the first opening brace to the last closing brace inclusive
and parses it; no such brace pair yields null, and a parsed value failing
the membership validation yields null. -/
theorem claim9_json_extraction (loads : Str → Option PyVal) (text : Str) :
    (generateKeywords (Except.ok (.vstr text)) loads
      = .ok (match extractJsonSlice text with
             | none => none
             | some js =>
               match loads js with
               | none => none
               | some data =>
                 if passesValidation data then some data else none)) ∧
    (∀ i j, strFind '\x7b' text = some i → strRfind '\x7d' text = some j →
      i < j → extractJsonSlice text = some ((text.drop i).take (j + 1 - i))) ∧
    (strFind '\x7b' text = none ∨ strRfind '\x7d' text = none →
      extractJsonSlice text = none) := by
  refine ⟨?_, ?_, ?_⟩
  · show catchDecodeAndType (processContent loads (.vstr text)) = _
    rw [processContent_vstr]
    cases hx : extractJsonSlice text with
    | none => rfl
    | some js =>
      show catchDecodeAndType (match loads js with
        | none => Except.error PyErr.decodeErr
        | some data => validateData data)
        = Except.ok (match loads js with
          | none => none
          | some data =>
            if passesValidation data then some data else none)
      cases hl : loads js with
      | none => rfl
      | some data =>
        show catchDecodeAndType (validateData data)
          = Except.ok (if passesValidation data then some data else none)
        exact catch_validateData_eq data
  · intro i j hi hj hij
    unfold extractJsonSlice
    rw [hi, hj]
    show (if i < j then some ((text.drop i).take (j + 1 - i)) else none) = _
    rw [if_pos hij]
  · intro h
    unfold extractJsonSlice
    rcases h with h | h
    · rw [h]
    · rw [h]
      cases strFind '\x7b' text <;> rfl

/-- A concrete model reply whose parsed value has an `appKeywords` member
that is not a list: the JSON text. -/
def cexText : Str := "\x7b\x22aikeywords\x22:\x7b\x22appKeywords\x22:5\x7d\x7d".toList

/-- `json.loads` of `cexText`: a dict whose `aikeywords` value is the dict
mapping `appKeywords` to the integer 5. -/
def cexData : PyVal :=
  .vdict [("aikeywords".toList, .vdict [("appKeywords".toList, .vint 5)])]

/-- The `json.loads` oracle restricted to the counterexample input,
agreeing with Python's parser there. -/
def cexLoads : Str → Option PyVal :=
  fun s => if s == cexText then some cexData else none

/-- C9 counterexample to the claim as stated: for this reply the parsed
value lacks an `appKeywords` LIST (the member's value is the integer 5),
yet the result is the parsed value, not null — the validation only tests
membership, never the member's type. -/
theorem claim9_counterexample :
    generateKeywords (Except.ok (.vstr cexText)) cexLoads
      = Except.ok (some cexData) ∧
    pySubscript cexData aikeywordsKey
      = Except.ok (.vdict [("appKeywords".toList, .vint 5)]) ∧
    generateKeywords (Except.ok (.vstr cexText)) cexLoads ≠ Except.ok none := by
  refine ⟨by rfl, by rfl, ?_⟩
  intro h
  rw [show generateKeywords (Except.ok (.vstr cexText)) cexLoads
        = Except.ok (some cexData) from by rfl] at h
  injection h with h'
  exact Option.noConfusion h'

/-! ### Scrape assembly (`AppStoreScraper.scrape`) -/

/-- The scraped record (`AppDetails` TypedDict of `scrapper.py`). -/
structure AppDetails where
  appid : Str
  appurl : Str
  appname : Str
  appsubtitle : Str
  rating : Str
  size : Str
  category : Str
  iphone_screenshots : List Str
  description : Str
  keywords : List Str
  competitor_apps : List CompetitorApp
  competitor_apps_keywords : List CompetitorAppKeywords
deriving DecidableEq

/-- `re.search(r'id(\d+)', s)`: the digits after the leftmost occurrence of
`id` followed by at least one digit (group 1, greedy). -/
def searchIdDigits : Str → Option Str
  | 'i' :: 'd' :: c :: rest =>
    if c.isDigit then some (c :: rest.takeWhile Char.isDigit)
    else searchIdDigits ('d' :: c :: rest)
  | _ :: rest => searchIdDigits rest
  | [] => none

/-- `get_text(...).split('\n')[0]` applied to the name heading. -/
def firstLine (s : Str) : Str :=
  match s.splitOn '\n' with
  | [] => []
  | l :: _ => l

def notFound : Str := "Not Found".toList

/-- The outcome of fetching and HTML-parsing the main page (the oracle for
`requests.get` + BeautifulSoup): each field is the extracted raw text when
the element is present.  The sentinel defaults are applied by `scrape`. -/
structure ParsedPage where
  app_name_text : Option Str
  app_subtitle_text : Option Str
  rating_text : Option Str
  size_text : Option Str
  category_text : Option Str
  iphone_screenshots : List Str
  description_text : Option Str
  keywords_content : Option Str
  competitor_apps : List CompetitorApp

/-- `AppStoreScraper.scrape`: `none` when the HTTP fetch (or any uncaught
parsing step) fails; otherwise the assembled record.  The `appid` falls back
to the sentinel `"unknown_id"` when the prepared URL has no `id` digits —
this is not a failure. -/
def scrape (page? : Option ParsedPage)
    (compFetch : CompetitorApp → Except Unit (Option Str))
    (url_to_scrape : Str) : Option AppDetails :=
  match page? with
  | none => none
  | some page =>
    let app_name := match page.app_name_text with
      | some t => firstLine t
      | none => notFound
    let app_subtitle := page.app_subtitle_text.getD notFound
    let rating := page.rating_text.getD notFound
    let size := page.size_text.getD notFound
    let category := page.category_text.getD notFound
    let description := page.description_text.getD notFound
    let keywords := getKeywordsFromSoup app_name app_subtitle page.keywords_content
    let competitor_apps_keywords :=
      (scrapeCompetitorsBatch app_name app_subtitle compFetch page.competitor_apps).2
    let appid := (searchIdDigits url_to_scrape).getD "unknown_id".toList
    some { appid := appid, appurl := url_to_scrape, appname := app_name,
           appsubtitle := app_subtitle, rating := rating, size := size,
           category := category, iphone_screenshots := page.iphone_screenshots,
           description := description, keywords := keywords,
           competitor_apps := page.competitor_apps,
           competitor_apps_keywords := competitor_apps_keywords }

/-! ### Catalog store (`typesense_client.py`) -/

/-- `doc_to_ingest` as built by `app.py` lines 55–63: a copy of the scraped
record with `competitor_apps` flattened to `"name (url)"` strings and the
`keywords` and `competitor_apps_keywords` keys popped (absent here). -/
structure PreDoc where
  appid : Str
  appurl : Str
  appname : Str
  appsubtitle : Str
  rating : Str
  size : Str
  category : Str
  iphone_screenshots : List Str
  description : Str
  competitor_apps : List Str
deriving DecidableEq

/-- The facts document actually sent to the store by `ingestAppDetails`:
the prepared doc plus `uid`, both timestamps, and `country`.  It contains
no `id` key (the store's own document-id field). -/
structure FactsDoc extends PreDoc where
  uid : Str
  ingested_datetime : Str
  modified_datetime : Str
  country : Str
deriving DecidableEq

def prepareDocToIngest (d : AppDetails) : PreDoc :=
  { appid := d.appid, appurl := d.appurl, appname := d.appname,
    appsubtitle := d.appsubtitle, rating := d.rating, size := d.size,
    category := d.category, iphone_screenshots := d.iphone_screenshots,
    description := d.description,
    competitor_apps := d.competitor_apps.map
      (fun c => c.appname ++ " (".toList ++ c.appurl ++ ")".toList) }

/-- `TypesenseClient.ingestAppDetails`: stamp a fresh uuid as `uid`, the
same timestamp string into both datetime fields, attach the country, and
write with `action: upsert`.  Returns `(True, uid)` on success or
`(False, "Error: ...")` on an import exception, together with the document
that was sent. -/
def ingestAppDetails (importResult : Except Str Unit) (freshUid now : Str)
    (pre : PreDoc) (country : Str) : (Bool × Str) × FactsDoc :=
  let doc : FactsDoc :=
    { toPreDoc := pre, uid := freshUid, ingested_datetime := now,
      modified_datetime := now, country := country }
  match importResult with
  | .ok _ => ((true, freshUid), doc)
  | .error e => ((false, "Error: ".toList ++ e), doc)

/-- Modelled from the spec: the store's document-upsert contract
("insert-or-replace by a stable document identifier").  A document carrying
an `id` replaces the stored document with that id (or is inserted); a
document without an `id` is inserted under a fresh server-assigned id. -/
def typesenseUpsert (coll : List (Str × FactsDoc)) (docId : Option Str)
    (freshServerId : Str) (doc : FactsDoc) : List (Str × FactsDoc) :=
  match docId with
  | some i =>
    if coll.any (fun p => p.1 == i) then
      coll.map (fun p => if p.1 == i then (i, doc) else p)
    else coll ++ [(i, doc)]
  | none => coll ++ [(freshServerId, doc)]

/-- The document built by `ingestAppDetails` has exactly the schema fields
plus `uid`/timestamps/`country` — no `id` key — so every import carries no
document id. -/
def ingestedDocId : Option Str := none

/-- One facts-document import as seen by the store. -/
def ingestIntoStore (coll : List (Str × FactsDoc)) (freshServerId : Str)
    (doc : FactsDoc) : List (Str × FactsDoc) :=
  typesenseUpsert coll ingestedDocId freshServerId doc

/-- A stored AI-keyword-set document, as returned by the lookup. -/
structure AiKwDoc where
  uid : Str
  app_uid : Str
  appid : Str
  country : Str
deriving DecidableEq

/-- The store-search oracles for `get_existing_app_data`: the hit list of
each of the two searches, or a transport error. -/
structure StoreSearchEnv where
  appSearchResult : Except Unit (List FactsDoc)
  kwSearchResult : Except Unit (List AiKwDoc)

/-- `TypesenseClient.get_existing_app_data` (lines 98–140): prepare the URL
with the same regex logic (country code used as passed, not lower-cased),
search the facts collection, require the top hit's `appurl` to equal the
prepared URL, then search the keyword collection by `(appid, country)`.
Any transport error anywhere degrades to `(None, None)`. -/
def getExistingAppData (env : StoreSearchEnv) (app_url country : Str) :
    Option FactsDoc × Option AiKwDoc :=
  let _prepared := prepareUrlCore app_url country
  match env.appSearchResult with
  | .error _ => (none, none)
  | .ok hits =>
    match hits with
    | [] => (none, none)
    | doc :: _ =>
      if doc.appurl == prepareUrlCore app_url country then
        if doc.appid == ([] : Str) then (some doc, none)
        else
          match env.kwSearchResult with
          | .error _ => (none, none)
          | .ok kwHits =>
            match kwHits with
            | [] => (some doc, none)
            | k :: _ => (some doc, some k)
      else (none, none)

/-! ### Pipeline orchestrator (`app.py`, button branch) -/

/-- All external effects of one pipeline run, as oracle outcomes. -/
structure OrchestratorEnv where
  store : StoreSearchEnv
  page : Option ParsedPage
  compFetch : CompetitorApp → Except Unit (Option Str)
  invoke : Except PyErr PyVal
  loads : Str → Option PyVal
  importDetails : Except Str Unit
  freshUid : Str
  now : Str

/-- The effectful calls the orchestrator can make after the existence
check: the Fetcher, the Synthesizer, and the two upsert operations. -/
inductive PipelineCall where
  | scrapeCall : PipelineCall
  | generateCall : PipelineCall
  | ingestDetailsCall : PipelineCall
  | ingestKeywordsCall : Str → Str → PipelineCall
deriving DecidableEq

/-- The terminal outcome rendered by the UI.  `ingested b` records whether
the "Could not determine appid" error message was shown (`b = true` when
the appid was the sentinel); the run still ingests the keywords. -/
inductive PipelineOutcome where
  | emptyUrl : PipelineOutcome
  | cachedResult : FactsDoc → AiKwDoc → PipelineOutcome
  | scrapeFailed : PipelineOutcome
  | aiFailed : PipelineOutcome
  | crashed : PyErr → PipelineOutcome
  | ingestFailed : Str → PipelineOutcome
  | ingested : Bool → PipelineOutcome
deriving DecidableEq

/-- The non-cached path (`app.py` lines 38–84): scrape, synthesize, prepare
the document, ingest the facts, and — only on success — ingest the
keywords, passing the returned uid and the record's `appid` (which may be
the sentinel; the error message does not halt the keyword ingestion). -/
def runPipelineFresh (env : OrchestratorEnv) (app_url country : Str) :
    PipelineOutcome × List PipelineCall :=
  match scrape env.page env.compFetch (prepare_url app_url country) with
  | none => (.scrapeFailed, [.scrapeCall])
  | some app_details =>
    match generateKeywords env.invoke env.loads with
    | .error e => (.crashed e, [.scrapeCall, .generateCall])
    | .ok none => (.aiFailed, [.scrapeCall, .generateCall])
    | .ok (some _ai) =>
      match ingestAppDetails env.importDetails env.freshUid env.now
          (prepareDocToIngest app_details) country with
      | ((true, uidOrErr), _doc) =>
        (.ingested (app_details.appid == "unknown_id".toList),
         [.scrapeCall, .generateCall, .ingestDetailsCall,
          .ingestKeywordsCall uidOrErr app_details.appid])
      | ((false, uidOrErr), _doc) =>
        (.ingestFailed uidOrErr, [.scrapeCall, .generateCall, .ingestDetailsCall])

/-- `app.py` lines 26–86: an empty URL only warns; otherwise check for
existing data and short-circuit when both a record and a keyword set were
found, else run the full fresh pipeline. -/
def runPipeline (env : OrchestratorEnv) (app_url country : Str) :
    PipelineOutcome × List PipelineCall :=
  if app_url == ([] : Str) then (.emptyUrl, [])
  else
    match getExistingAppData env.store app_url country with
    | (some d, some k) => (.cachedResult d k, [])
    | _ => runPipelineFresh env app_url country

lemma getExisting_shapes (env : StoreSearchEnv) (app_url country : Str) :
    getExistingAppData env app_url country = (none, none) ∨
    (∃ d, getExistingAppData env app_url country = (some d, none)) ∨
    (∃ d k, getExistingAppData env app_url country = (some d, some k)) := by
  unfold getExistingAppData
  rcases hsr : env.appSearchResult with e | hits
  · left; rfl
  · rcases hits with _ | ⟨doc, rest⟩
    · left; rfl
    · by_cases hurl : (doc.appurl == prepareUrlCore app_url country) = true
      · by_cases happ : (doc.appid == ([] : Str)) = true
        · right; left
          exact ⟨doc, by simp [hurl, happ]⟩
        · have happ' : (doc.appid == ([] : Str)) = false := Bool.eq_false_iff.mpr happ
          rcases hkr : env.kwSearchResult with e2 | kwHits
          · left; simp [hurl, happ', hkr]
          · rcases kwHits with _ | ⟨k, krest⟩
            · right; left
              exact ⟨doc, by simp [hurl, happ', hkr]⟩
            · right; right
              exact ⟨doc, k, by simp [hurl, happ', hkr]⟩
      · have hurl' : (doc.appurl == prepareUrlCore app_url country) = false :=
          Bool.eq_false_iff.mpr hurl
        left; simp [hurl']

lemma runPipeline_empty (env : OrchestratorEnv) (country : Str) :
    runPipeline env [] country = (.emptyUrl, []) := by
  unfold runPipeline
  rfl

lemma runPipeline_cached (env : OrchestratorEnv) (app_url country : Str)
    (d : FactsDoc) (k : AiKwDoc) (hurl : app_url ≠ [])
    (hex : getExistingAppData env.store app_url country = (some d, some k)) :
    runPipeline env app_url country = (.cachedResult d k, []) := by
  unfold runPipeline
  rw [show (app_url == ([] : Str)) = false from beq_eq_false_iff_ne.mpr hurl, hex]
  rfl

lemma runPipeline_not_cached (env : OrchestratorEnv) (app_url country : Str)
    (hurl : app_url ≠ [])
    (hk : (getExistingAppData env.store app_url country).2 = none) :
    runPipeline env app_url country = runPipelineFresh env app_url country := by
  unfold runPipeline
  rw [show (app_url == ([] : Str)) = false from beq_eq_false_iff_ne.mpr hurl]
  rcases hex : getExistingAppData env.store app_url country with ⟨fst, snd⟩
  rw [hex] at hk
  simp only at hk
  subst hk
  rcases fst with _ | d
  · rfl
  · rfl

lemma scrapeCall_mem_fresh (env : OrchestratorEnv) (app_url country : Str) :
    PipelineCall.scrapeCall ∈ (runPipelineFresh env app_url country).2 := by
  rcases hs : scrape env.page env.compFetch (prepare_url app_url country) with _ | d
  · rw [show runPipelineFresh env app_url country
        = (.scrapeFailed, [.scrapeCall]) from by
      unfold runPipelineFresh; rw [hs]]
    simp
  · rcases hg : generateKeywords env.invoke env.loads with e | r
    · rw [show runPipelineFresh env app_url country
          = (.crashed e, [.scrapeCall, .generateCall]) from by
        unfold runPipelineFresh; rw [hs, hg]]
      simp
    · rcases r with _ | ai
      · rw [show runPipelineFresh env app_url country
            = (.aiFailed, [.scrapeCall, .generateCall]) from by
          unfold runPipelineFresh; rw [hs, hg]]
        simp
      · rw [show runPipelineFresh env app_url country
            = (match ingestAppDetails env.importDetails env.freshUid env.now
                  (prepareDocToIngest d) country with
               | ((true, uidOrErr), _doc) =>
                 (.ingested (d.appid == "unknown_id".toList),
                  [.scrapeCall, .generateCall, .ingestDetailsCall,
                   .ingestKeywordsCall uidOrErr d.appid])
               | ((false, uidOrErr), _doc) =>
                 (.ingestFailed uidOrErr,
                  [.scrapeCall, .generateCall, .ingestDetailsCall])) from by
          unfold runPipelineFresh; rw [hs, hg]]
        rcases hres : ingestAppDetails env.importDetails env.freshUid env.now
            (prepareDocToIngest d) country with ⟨⟨b, uidOrErr⟩, doc⟩
        cases b <;> simp

lemma fresh_success_eq (env : OrchestratorEnv) (app_url country : Str)
    (d : AppDetails) (ai : PyVal)
    (hs : scrape env.page env.compFetch (prepare_url app_url country) = some d)
    (hg : generateKeywords env.invoke env.loads = Except.ok (some ai))
    (hi : env.importDetails = Except.ok ()) :
    runPipelineFresh env app_url country
      = (.ingested (d.appid == "unknown_id".toList),
         [.scrapeCall, .generateCall, .ingestDetailsCall,
          .ingestKeywordsCall env.freshUid d.appid]) := by
  unfold runPipelineFresh
  rw [hs, hg, hi]
  rfl

lemma fresh_import_error_eq (env : OrchestratorEnv) (app_url country : Str)
    (d : AppDetails) (ai : PyVal) (e : Str)
    (hs : scrape env.page env.compFetch (prepare_url app_url country) = some d)
    (hg : generateKeywords env.invoke env.loads = Except.ok (some ai))
    (hi : env.importDetails = Except.error e) :
    runPipelineFresh env app_url country
      = (.ingestFailed ("Error: ".toList ++ e),
         [.scrapeCall, .generateCall, .ingestDetailsCall]) := by
  unfold runPipelineFresh
  rw [hs, hg, hi]
  rfl

lemma ingest_result_true {imp : Except Str Unit} {uid now : Str}
    {pre : PreDoc} {country u : Str} {doc : FactsDoc}
    (h : ingestAppDetails imp uid now pre country = ((true, u), doc)) :
    imp = Except.ok () ∧ u = uid := by
  cases imp with
  | ok u0 =>
    cases u0
    simp [ingestAppDetails] at h
    exact ⟨rfl, h.1.symm⟩
  | error e => simp [ingestAppDetails] at h

lemma fresh_eq_ingest (env : OrchestratorEnv) (app_url country : Str)
    (d : AppDetails) (ai : PyVal)
    (hs : scrape env.page env.compFetch (prepare_url app_url country) = some d)
    (hg : generateKeywords env.invoke env.loads = Except.ok (some ai)) :
    runPipelineFresh env app_url country
      = (match ingestAppDetails env.importDetails env.freshUid env.now
            (prepareDocToIngest d) country with
         | ((true, uidOrErr), _doc) =>
           (.ingested (d.appid == "unknown_id".toList),
            [.scrapeCall, .generateCall, .ingestDetailsCall,
             .ingestKeywordsCall uidOrErr d.appid])
         | ((false, uidOrErr), _doc) =>
           (.ingestFailed uidOrErr,
            [.scrapeCall, .generateCall, .ingestDetailsCall])) := by
  unfold runPipelineFresh
  rw [hs, hg]

lemma kwCall_fresh (env : OrchestratorEnv) (app_url country : Str) (u a : Str)
    (h : PipelineCall.ingestKeywordsCall u a ∈ (runPipelineFresh env app_url country).2) :
    env.importDetails = Except.ok () ∧ u = env.freshUid := by
  rcases hs : scrape env.page env.compFetch (prepare_url app_url country) with _ | d
  · rw [show runPipelineFresh env app_url country
        = (.scrapeFailed, [.scrapeCall]) from by
      unfold runPipelineFresh; rw [hs]] at h
    simp at h
  · rcases hg : generateKeywords env.invoke env.loads with e | r
    · rw [show runPipelineFresh env app_url country
          = (.crashed e, [.scrapeCall, .generateCall]) from by
        unfold runPipelineFresh; rw [hs, hg]] at h
      simp at h
    · rcases r with _ | ai
      · rw [show runPipelineFresh env app_url country
            = (.aiFailed, [.scrapeCall, .generateCall]) from by
          unfold runPipelineFresh; rw [hs, hg]] at h
        simp at h
      · rw [fresh_eq_ingest env app_url country d ai hs hg] at h
        rcases hres : ingestAppDetails env.importDetails env.freshUid env.now
            (prepareDocToIngest d) country with ⟨⟨b, uidOrErr⟩, doc⟩
        rw [hres] at h
        cases b with
        | false => simp at h
        | true =>
          simp at h
          obtain ⟨hu, -⟩ := h
          obtain ⟨hok, huid⟩ := ingest_result_true hres
          exact ⟨hok, hu.trans huid⟩

/-- C1: the lookup is the sole cache.  When the existence check returns
both a stored record and a stored keyword set, the pipeline returns that
stored pair as-is with no Fetcher, Synthesizer, or upsert call; the lookup
never returns a keyword set without a record, so "either missing" is
exactly "the keyword set is missing", and in that case the fetch runs, and
on success of every stage the full fetch–synthesize–persist sequence runs. -/
theorem claim1_existing_short_circuit (env : OrchestratorEnv)
    (app_url country : Str) (hurl : app_url ≠ []) :
    (∀ d k, getExistingAppData env.store app_url country = (some d, some k) →
      runPipeline env app_url country = (.cachedResult d k, [])) ∧
    ((getExistingAppData env.store app_url country).1 = none →
      (getExistingAppData env.store app_url country).2 = none) ∧
    ((getExistingAppData env.store app_url country).2 = none →
      PipelineCall.scrapeCall ∈ (runPipeline env app_url country).2) ∧
    (∀ d ai, (getExistingAppData env.store app_url country).2 = none →
      scrape env.page env.compFetch (prepare_url app_url country) = some d →
      generateKeywords env.invoke env.loads = Except.ok (some ai) →
      env.importDetails = Except.ok () →
      (runPipeline env app_url country).2
        = [.scrapeCall, .generateCall, .ingestDetailsCall,
           .ingestKeywordsCall env.freshUid d.appid]) := by
  refine ⟨?_, ?_, ?_, ?_⟩
  · intro d k hex
    exact runPipeline_cached env app_url country d k hurl hex
  · intro h1
    rcases getExisting_shapes env.store app_url country with hsh | ⟨d, hsh⟩ | ⟨d, k, hsh⟩
    · rw [hsh]
    · rw [hsh]
    · rw [hsh] at h1
      exact absurd h1 (by simp)
  · intro hk
    rw [runPipeline_not_cached env app_url country hurl hk]
    exact scrapeCall_mem_fresh env app_url country
  · intro d ai hk hs hg hi
    rw [runPipeline_not_cached env app_url country hurl hk]
    rw [fresh_success_eq env app_url country d ai hs hg hi]

/-- C8: the keyword-set upsert runs only after a successful facts upsert
(and receives exactly the uid that upsert returned); when the facts upsert
fails, the error is surfaced as the descriptive string `"Error: ..."` and
no keyword-set document is written. -/
theorem claim8_facts_before_keywords (env : OrchestratorEnv)
    (app_url country : Str) :
    (∀ u a, PipelineCall.ingestKeywordsCall u a ∈ (runPipeline env app_url country).2 →
      env.importDetails = Except.ok () ∧ u = env.freshUid) ∧
    (∀ e d ai, app_url ≠ [] →
      (getExistingAppData env.store app_url country).2 = none →
      scrape env.page env.compFetch (prepare_url app_url country) = some d →
      generateKeywords env.invoke env.loads = Except.ok (some ai) →
      env.importDetails = Except.error e →
      runPipeline env app_url country
        = (.ingestFailed ("Error: ".toList ++ e),
           [.scrapeCall, .generateCall, .ingestDetailsCall])) := by
  constructor
  · intro u a h
    by_cases hurl : app_url = []
    · subst hurl
      rw [runPipeline_empty env country] at h
      simp at h
    · rcases getExisting_shapes env.store app_url country with hsh | ⟨d, hsh⟩ | ⟨d, k, hsh⟩
      · rw [runPipeline_not_cached env app_url country hurl (by rw [hsh])] at h
        exact kwCall_fresh env app_url country u a h
      · rw [runPipeline_not_cached env app_url country hurl (by rw [hsh])] at h
        exact kwCall_fresh env app_url country u a h
      · rw [runPipeline_cached env app_url country d k hurl hsh] at h
        simp at h
  · intro e d ai hurl hk hs hg hi
    rw [runPipeline_not_cached env app_url country hurl hk]
    exact fresh_import_error_eq env app_url country d ai e hs hg hi

/-- C10: a prepared URL without `id`-digits still scrapes successfully with
the sentinel appid `"unknown_id"`, and after a successful facts upsert the
orchestrator still calls keyword ingestion with that sentinel — the
"could not determine appid" error report does not halt or skip keyword
persistence (the outcome flag `true` records that the message was shown). -/
theorem claim10_unknown_appid (env : OrchestratorEnv) (app_url country : Str)
    (pg : ParsedPage) (hpage : env.page = some pg)
    (hid : searchIdDigits (prepare_url app_url country) = none) :
    (∃ d, scrape env.page env.compFetch (prepare_url app_url country) = some d ∧
      d.appid = "unknown_id".toList) ∧
    (∀ d ai, app_url ≠ [] →
      (getExistingAppData env.store app_url country).2 = none →
      scrape env.page env.compFetch (prepare_url app_url country) = some d →
      generateKeywords env.invoke env.loads = Except.ok (some ai) →
      env.importDetails = Except.ok () →
      runPipeline env app_url country
        = (.ingested true,
           [.scrapeCall, .generateCall, .ingestDetailsCall,
            .ingestKeywordsCall env.freshUid "unknown_id".toList])) := by
  constructor
  · rw [hpage]
    refine ⟨_, rfl, ?_⟩
    show ((searchIdDigits (prepare_url app_url country)).getD "unknown_id".toList)
      = "unknown_id".toList
    rw [hid]
    rfl
  · intro d ai hurl hk hs hg hi
    have hd : d.appid = "unknown_id".toList := by
      rw [hpage] at hs
      have hs' : some ((scrape (some pg) env.compFetch (prepare_url app_url country)).getD d)
          = some d := by
        rw [hs]
        rfl
      injection hs' with hs''
      rw [← hs'']
      show ((searchIdDigits (prepare_url app_url country)).getD "unknown_id".toList)
        = "unknown_id".toList
      rw [hid]
      rfl
    rw [runPipeline_not_cached env app_url country hurl hk]
    rw [fresh_success_eq env app_url country d ai hs hg hi]
    rw [hd]
    rfl

/-- C2 (amended: the written document carries no store document id, so an
upsert never replaces a prior document — each re-scrape of the same app
accumulates a new facts document under a fresh server-assigned id).
`ingestAppDetails` stamps the fresh uuid as `uid`, writes the same
timestamp value into both datetime fields, attaches the country, keeps the
prepared fields unchanged, and returns `(True, uid)` on import success;
the import itself appends to the collection. -/
theorem claim2_ingest_app_record (importResult : Except Str Unit)
    (freshUid now : Str) (pre : PreDoc) (country : Str)
    (h : importResult = Except.ok ()) :
    ((ingestAppDetails importResult freshUid now pre country).2.uid = freshUid) ∧
    ((ingestAppDetails importResult freshUid now pre country).2.ingested_datetime = now) ∧
    ((ingestAppDetails importResult freshUid now pre country).2.modified_datetime = now) ∧
    ((ingestAppDetails importResult freshUid now pre country).2.ingested_datetime
      = (ingestAppDetails importResult freshUid now pre country).2.modified_datetime) ∧
    ((ingestAppDetails importResult freshUid now pre country).2.country = country) ∧
    ((ingestAppDetails importResult freshUid now pre country).2.toPreDoc = pre) ∧
    ((ingestAppDetails importResult freshUid now pre country).1 = (true, freshUid)) ∧
    (∀ coll sid doc, ingestIntoStore coll sid doc = coll ++ [(sid, doc)]) := by
  subst h
  exact ⟨rfl, rfl, rfl, rfl, rfl, rfl, rfl, fun _ _ _ => rfl⟩

def url0 : Str := "https://apps.apple.com/us/app/foo".toList

/-- A prepared facts document of one scraped app. -/
def preX : PreDoc :=
  { appid := "42".toList, appurl := url0, appname := "A".toList,
    appsubtitle := "S".toList, rating := "4".toList, size := "1".toList,
    category := "G".toList, iphone_screenshots := [],
    description := "D".toList, competitor_apps := [] }

/-- The document written by the first scrape of the app. -/
def docX1 : FactsDoc :=
  (ingestAppDetails (Except.ok ()) "uid-1".toList "t1".toList preX "us".toList).2

/-- The document written by a re-scrape of the same app (fresh uuid, later
timestamp). -/
def docX2 : FactsDoc :=
  (ingestAppDetails (Except.ok ()) "uid-2".toList "t2".toList preX "us".toList).2

/-- C2 counterexample to the claim as stated: a re-scrape of the same app
does NOT replace the prior facts document — since neither document carries
a store document id, the second import appends, leaving two documents in
the collection with the first one intact. -/
theorem claim2_counterexample :
    ingestIntoStore (ingestIntoStore [] "s1".toList docX1) "s2".toList docX2
      = [("s1".toList, docX1), ("s2".toList, docX2)] ∧
    (ingestIntoStore (ingestIntoStore [] "s1".toList docX1) "s2".toList docX2).length
      ≠ 1 := by
  exact ⟨rfl, by decide⟩

/-- Witness for C2 at a concrete import. -/
theorem claim2_ingest_app_record_witness :
    (ingestAppDetails (Except.ok ()) "uid-1".toList "t1".toList preX "us".toList).2.uid
      = "uid-1".toList ∧
    (ingestAppDetails (Except.ok ()) "uid-1".toList "t1".toList preX "us".toList).1
      = (true, "uid-1".toList) := by
  have h := claim2_ingest_app_record (Except.ok ()) "uid-1".toList "t1".toList
    preX "us".toList rfl
  exact ⟨h.1, h.2.2.2.2.2.2.1⟩

/-- A concrete parsed page for witnesses. -/
def pageA : ParsedPage :=
  { app_name_text := some "MyApp".toList, app_subtitle_text := some "Sub".toList,
    rating_text := none, size_text := none, category_text := none,
    iphone_screenshots := [], description_text := some "Desc".toList,
    keywords_content := some "alpha, beta".toList, competitor_apps := [] }

/-- A model reply value that passes the validation. -/
def aiOkVal : PyVal :=
  .vdict [("aikeywords".toList,
           .vdict [("appKeywords".toList, .vlist [.vstr "a".toList])])]

/-- A fresh-run environment: empty store, reachable model, import succeeds. -/
def envFresh : OrchestratorEnv :=
  { store := { appSearchResult := Except.ok [], kwSearchResult := Except.ok [] },
    page := some pageA,
    compFetch := fun _ => Except.error (),
    invoke := Except.ok (.vstr "\x7bj\x7d".toList),
    loads := fun _ => some aiOkVal,
    importDetails := Except.ok (),
    freshUid := "u-1".toList,
    now := "t0".toList }

/-- The same environment with a failing facts import. -/
def envFail : OrchestratorEnv :=
  { envFresh with importDetails := Except.error "boom".toList }

/-- The record `scrape` produces for `pageA` at the prepared `url0`. -/
def dRec0 : AppDetails :=
  { appid := "unknown_id".toList, appurl := prepare_url url0 "us".toList,
    appname := "MyApp".toList, appsubtitle := "Sub".toList,
    rating := notFound, size := notFound, category := notFound,
    iphone_screenshots := [], description := "Desc".toList,
    keywords := ["alpha".toList, "beta".toList],
    competitor_apps := [], competitor_apps_keywords := [] }

/-- A cache-hit environment: the store already holds the record and the
keyword set for `url0` in country `us`. -/
def docA : FactsDoc :=
  { appid := "42".toList, appurl := prepareUrlCore url0 "us".toList,
    appname := "MyApp".toList, appsubtitle := "Sub".toList,
    rating := "4".toList, size := "10MB".toList, category := "Games".toList,
    iphone_screenshots := [], description := "Desc".toList,
    competitor_apps := [], uid := "u-0".toList,
    ingested_datetime := "t".toList, modified_datetime := "t".toList,
    country := "us".toList }

def kwA : AiKwDoc :=
  { uid := "k-0".toList, app_uid := "u-0".toList, appid := "42".toList,
    country := "us".toList }

def envCached : OrchestratorEnv :=
  { store := { appSearchResult := Except.ok [docA], kwSearchResult := Except.ok [kwA] },
    page := none,
    compFetch := fun _ => Except.error (),
    invoke := Except.error (PyErr.otherErr []),
    loads := fun _ => none,
    importDetails := Except.error [],
    freshUid := [], now := [] }

/-- Witness for C1: a cache hit short-circuits with no calls, and with an
empty store the fresh path invokes the Fetcher. -/
theorem claim1_existing_short_circuit_witness :
    runPipeline envCached url0 "us".toList = (.cachedResult docA kwA, []) ∧
    PipelineCall.scrapeCall ∈ (runPipeline envFresh url0 "us".toList).2 :=
  ⟨(claim1_existing_short_circuit envCached url0 "us".toList (by decide)).1
      docA kwA (by rfl),
   (claim1_existing_short_circuit envFresh url0 "us".toList (by decide)).2.2.1
      (by rfl)⟩

/-- Witness for C8: with the facts import failing, the run surfaces the
descriptive error string and performs no keyword-set write. -/
theorem claim8_facts_before_keywords_witness :
    runPipeline envFail url0 "us".toList
      = (.ingestFailed ("Error: ".toList ++ "boom".toList),
         [.scrapeCall, .generateCall, .ingestDetailsCall]) :=
  (claim8_facts_before_keywords envFail url0 "us".toList).2
    "boom".toList dRec0 aiOkVal (by decide) (by rfl) (by rfl) (by rfl) (by rfl)

/-- Witness for C10: a URL without id-digits still runs the whole pipeline
and ingests the keywords under the sentinel appid. -/
theorem claim10_unknown_appid_witness :
    runPipeline envFresh url0 "us".toList
      = (.ingested true,
         [.scrapeCall, .generateCall, .ingestDetailsCall,
          .ingestKeywordsCall "u-1".toList "unknown_id".toList]) :=
  (claim10_unknown_appid envFresh url0 "us".toList pageA (by rfl) (by rfl)).2
    dRec0 aiOkVal (by decide) (by rfl) (by rfl) (by rfl) (by rfl)

/-- Witness for C3 at a concrete environment: a decode failure is
value-returned as null and an unreachable model's exception propagates. -/
theorem claim3_synthesize_failures_witness :
    (∃ r : Option PyVal,
      generateKeywords (Except.ok (.vstr "no braces".toList)) (fun _ => none)
        = .ok r) ∧
    generateKeywords (Except.error PyErr.typeErr) (fun _ => none)
      = .error PyErr.typeErr :=
  ⟨(claim3_synthesize_failures (fun _ => none) (.vstr "no braces".toList)).1,
   (claim3_synthesize_failures (fun _ => none) (.vstr "no braces".toList)).2
     PyErr.typeErr⟩

/-- Witness for C9 at a concrete reply: the slice runs from the first
opening to the last closing brace. -/
theorem claim9_json_extraction_witness :
    extractJsonSlice "a\x7bb\x7dc".toList
      = some (("a\x7bb\x7dc".toList.drop 1).take 3) :=
  (claim9_json_extraction (fun _ => none) "a\x7bb\x7dc".toList).2.1 1 3
    (by rfl) (by rfl) (by decide)

/-- Witness for C7: three competitors with the middle fetch failing yield
exactly the first and third entries, in order. -/
theorem claim7_competitor_batch_witness :
    (scrapeCompetitorsBatch "N".toList "S".toList
        (fun c => if c.appname == "c2".toList then Except.error ()
                  else Except.ok (some "kw".toList))
        [⟨"c1".toList, "u1".toList⟩, ⟨"c2".toList, "u2".toList⟩,
         ⟨"c3".toList, "u3".toList⟩]).2
      = [⟨"c1".toList, ["kw".toList]⟩, ⟨"c3".toList, ["kw".toList]⟩] := by
  rw [(claim7_competitor_batch "N".toList "S".toList
      (fun c => if c.appname == "c2".toList then Except.error ()
                else Except.ok (some "kw".toList))
      [⟨"c1".toList, "u1".toList⟩, ⟨"c2".toList, "u2".toList⟩,
       ⟨"c3".toList, "u3".toList⟩]).2.1]
  rfl
